import Mathlib

/-!
Shallow embedding of the type-mapping, schema-inference, partition-path and
casting layer of `awswrangler/_data_types.py`, together with theorems checking
the natural-language specification's claims against it.

Python strings are modelled as `List Char` (wrapped in `String` at the API
boundary), Python `dict` as an insertion-ordered association list with
last-write-wins update, and raised exceptions as `Except WErr`.
-/

namespace AwsWrangler

/-- Exceptions raised by the embedded code: the module's own
`UnsupportedType` / `UndetectedType` (from `awswrangler.exceptions`) plus the
Python builtin errors the code can hit (`ValueError` from `int()` / tuple
unpacking / `pyarrow.decimal128`, `KeyError` from dict lookup, `IndexError`
from indexing an empty string). -/
inductive WErr where
  | unsupportedType (msg : String)
  | undetectedType (msg : String)
  | valueError (msg : String)
  | keyError (key : String)
  | indexError (msg : String)
deriving DecidableEq, Repr

/-- Python `str.lower` on one character, ASCII range (the embedding is applied
only to ASCII type tags, where CPython's `lower` is exactly this shift). -/
def lowerChar (c : Char) : Char :=
  if 65 ≤ c.toNat ∧ c.toNat ≤ 90 then Char.ofNat (c.toNat + 32) else c

/-- Python `str.lower` over the character list of a string. -/
def pyLower (l : List Char) : List Char := l.map lowerChar

/-- Python `str.lower` at the `String` boundary. -/
def pyLowerStr (s : String) : String := ⟨pyLower s.data⟩

/-- Python `needle in haystack` substring containment test. -/
def containsSub (pat : List Char) : List Char → Bool
  | [] => pat.isEmpty
  | c :: rest => pat.isPrefixOf (c :: rest) || containsSub pat rest

/-- Worker for `replAll`; the fuel only bounds the recursion depth and is
always sufficient when it starts at the length of the scanned list. -/
def replAllAux : Nat → Char → List Char → List Char → List Char → List Char
  | 0, _, _, _, l => l
  | fuel + 1, p0, ps, rep, l =>
      match l with
      | [] => []
      | c :: rest =>
          if (p0 :: ps).isPrefixOf (c :: rest) then
            rep ++ replAllAux fuel p0 ps rep (rest.drop ps.length)
          else
            c :: replAllAux fuel p0 ps rep rest

/-- Python `str.replace(pat, rep)`: replace every non-overlapping occurrence
of the (non-empty) pattern `p0 :: ps`, scanning left to right. -/
def replAll (p0 : Char) (ps : List Char) (rep : List Char) (l : List Char) : List Char :=
  replAllAux l.length p0 ps rep l

/-- Python `str.split(sep=",")` restricted to a one-character separator. -/
def splitOnComma (l : List Char) : List (List Char) :=
  match l with
  | [] => [[]]
  | c :: rest =>
      if c = ',' then [] :: splitOnComma rest
      else
        match splitOnComma rest with
        | [] => [[c]]
        | piece :: pieces => (c :: piece) :: pieces

/-- Decimal digits of `n` rendered most-significant first (empty for `0`);
fuel-based so that it reduces inside the kernel. -/
def natDigitsAux : Nat → Nat → List Char
  | 0, _ => []
  | fuel + 1, n =>
      if n = 0 then [] else natDigitsAux fuel (n / 10) ++ [Char.ofNat (48 + n % 10)]

/-- Digits of `n` rendered most-significant first, as Python `str(n)` does for
a non-negative integer. -/
def natDigitChars (n : Nat) : List Char :=
  if n = 0 then ['0'] else natDigitsAux (n + 1) n

/-- Python `str` of a non-negative integer, at the `String` boundary. -/
def natStr (n : Nat) : String := ⟨natDigitChars n⟩

/-- Python `str` of an arbitrary integer. -/
def intDigitChars : Int → List Char
  | Int.ofNat n => natDigitChars n
  | Int.negSucc n => '-' :: natDigitChars (n + 1)

/-- Test for an ASCII decimal digit character. -/
def isDigitChar (c : Char) : Bool := 48 ≤ c.toNat ∧ c.toNat ≤ 57

/-- Parse a non-empty all-digit character list into a `Nat` (most-significant
digit first); `none` when empty or a non-digit is present. -/
def parseDigits (l : List Char) : Option Nat :=
  if l = [] then none
  else if l.all isDigitChar then some (l.foldl (fun a c => a * 10 + (c.toNat - 48)) 0)
  else none

/-- Python `int(str)`: strip ASCII spaces on both ends, optional single sign,
then a non-empty run of digits; anything else raises `ValueError`. -/
def pyInt (l : List Char) : Except WErr Int :=
  let t := (l.dropWhile (· = ' ')).reverse.dropWhile (· = ' ') |>.reverse
  match t with
  | [] => .error (.valueError ("invalid literal for int: " ++ ⟨l⟩))
  | c :: rest =>
      if c = '-' then
        match parseDigits rest with
        | some n => .ok (-(n : Int))
        | none => .error (.valueError ("invalid literal for int: " ++ ⟨l⟩))
      else if c = '+' then
        match parseDigits rest with
        | some n => .ok (n : Int)
        | none => .error (.valueError ("invalid literal for int: " ++ ⟨l⟩))
      else
        match parseDigits (c :: rest) with
        | some n => .ok (n : Int)
        | none => .error (.valueError ("invalid literal for int: " ++ ⟨l⟩))

mutual

/-- The in-memory columnar (pyarrow) type vocabulary reachable from this
module: primitive widths, temporal types, binary, decimal128, list, struct,
dictionary encoding, and the untyped `null` marker. -/
inductive PaDataType where
  | int8 | int16 | int32 | int64
  | float32 | float64
  | bool
  | string
  | timestamp (unit : String)
  | date32 | date64
  | binary
  | decimal128 (precision : Int) (scale : Int)
  | list (valueType : PaDataType)
  | struct (fields : PaFields)
  | dictionary (valueType : PaDataType)
  | null

/-- Named fields of a struct columnar type, in declaration order. -/
inductive PaFields where
  | nil
  | cons (name : String) (type : PaDataType) (rest : PaFields)

end

/-- Model of the `pa.decimal128` constructor: pyarrow accepts a precision
between 1 and 38 and raises `ValueError` otherwise (scale is not range-checked
here, matching the collaborator's laxer handling of scale). -/
def mkDecimal128 (precision scale : Int) : Except WErr PaDataType :=
  if 1 ≤ precision ∧ precision ≤ 38 then .ok (.decimal128 precision scale)
  else .error (.valueError "Decimal precision out of range")

/-- Body of `athena2pyarrow` on an already-lowercased character list, branch
for branch from the source. Line 39 of the source reads
`if dtype in ("binary" or "varbinary"):`, and in Python
`("binary" or "varbinary")` evaluates to the string `"binary"`, so the test is
substring containment of `dtype` in `"binary"`. The `decimal` branch strips
`"decimal("` and `")"` by global replacement, splits on `","`, tuple-unpacks
exactly two pieces and applies `int()` to each. -/
def athena2pyarrowL (d : List Char) : Except WErr PaDataType :=
  if d = "tinyint".data then .ok .int8
  else if d = "smallint".data then .ok .int16
  else if d = "int".data ∨ d = "integer".data then .ok .int32
  else if d = "bigint".data then .ok .int64
  else if d = "float".data then .ok .float32
  else if d = "double".data then .ok .float64
  else if d = "boolean".data then .ok .bool
  else if d = "string".data ∨ d = "char".data ∨ d = "varchar".data ∨
          d = "array".data ∨ d = "row".data ∨ d = "map".data then .ok .string
  else if d = "timestamp".data then .ok (.timestamp "ns")
  else if d = "date".data then .ok .date32
  else if containsSub d "binary".data then .ok .binary
  else if "decimal".data.isPrefixOf d then
    match splitOnComma (replAll ')' [] [] (replAll 'd' "ecimal(".data [] d)) with
    | [ps, ss] => do
        let p ← pyInt ps
        let s ← pyInt ss
        mkDecimal128 p s
    | _ => .error (.valueError "cannot unpack decimal parameters")
  else .error (.unsupportedType ("Unsupported Athena type: " ++ ⟨d⟩))

/-- `athena2pyarrow` from the source: lowercase the tag, then dispatch. -/
def athena2pyarrow (dtype : String) : Except WErr PaDataType :=
  athena2pyarrowL (pyLower dtype.data)

mutual

/-- `pyarrow2athena` from the source: the inverse mapping; dictionary-encoded
types recurse into the value type, decimal renders `decimal(p,s)`, list
renders `array<...>`, struct renders `struct<name: type, ...>`, and the null
marker raises `UndetectedType`. -/
def pyarrow2athena : PaDataType → Except WErr String
  | .int8 => .ok "tinyint"
  | .int16 => .ok "smallint"
  | .int32 => .ok "int"
  | .int64 => .ok "bigint"
  | .float32 => .ok "float"
  | .float64 => .ok "double"
  | .bool => .ok "boolean"
  | .string => .ok "string"
  | .timestamp _ => .ok "timestamp"
  | .date32 => .ok "date"
  | .date64 => .ok "date"
  | .binary => .ok "binary"
  | .dictionary v => pyarrow2athena v
  | .decimal128 p s =>
      .ok ("decimal(" ++ ⟨intDigitChars p⟩ ++ "," ++ ⟨intDigitChars s⟩ ++ ")")
  | .list v => do
      let inner ← pyarrow2athena v
      .ok ("array<" ++ inner ++ ">")
  | .struct fields => do
      let rendered ← pyarrow2athenaFields fields
      .ok ("struct<" ++ String.intercalate ", " rendered ++ ">")
  | .null => .error (.undetectedType "We can not infer the data type from an entire null object column")

/-- Renders each struct field as `name: type`, in declaration order. -/
def pyarrow2athenaFields : PaFields → Except WErr (List String)
  | .nil => .ok []
  | .cons n t rest => do
      let s ← pyarrow2athena t
      let tail ← pyarrow2athenaFields rest
      .ok ((n ++ ": " ++ s) :: tail)

end

/-- `athena2pandas` from the source: catalog tag to dataframe scalar kind.
Note the `binary` branch here uses a proper tuple `("binary", "varbinary")`,
unlike the slip in `athena2pyarrow`. -/
def athena2pandas (dtype : String) : Except WErr String :=
  let d := pyLower dtype.data
  if d = "tinyint".data then .ok "Int8"
  else if d = "smallint".data then .ok "Int16"
  else if d = "int".data ∨ d = "integer".data then .ok "Int32"
  else if d = "bigint".data then .ok "Int64"
  else if d = "float".data then .ok "float32"
  else if d = "double".data then .ok "float64"
  else if d = "boolean".data then .ok "boolean"
  else if d = "string".data ∨ d = "char".data ∨ d = "varchar".data then .ok "string"
  else if d = "timestamp".data ∨ d = "timestamp with time zone".data then .ok "datetime64"
  else if d = "date".data then .ok "date"
  else if "decimal".data.isPrefixOf d then .ok "decimal"
  else if d = "binary".data ∨ d = "varbinary".data then .ok "bytes"
  else if d = "array".data then .ok "list"
  else .error (.unsupportedType ("Unsupported Athena type: " ++ ⟨d⟩))

/-! ### Character-level lemmas -/

/-- Packing a scalar value below the surrogate range round-trips `toNat`. -/
theorem toNat_ofNat_valid (n : Nat) (h : n < 55296) : (Char.ofNat n).toNat = n := by
  have hv : n.isValidChar := Or.inl h
  rw [Char.ofNat, dif_pos hv]
  simp [Char.ofNatAux, Char.toNat, UInt32.toNat]

/-- Lowering an already-lowered character changes nothing. -/
theorem lowerChar_idem (c : Char) : lowerChar (lowerChar c) = lowerChar c := by
  by_cases h : 65 ≤ c.toNat ∧ c.toNat ≤ 90
  · have h32 : (Char.ofNat (c.toNat + 32)).toNat = c.toNat + 32 :=
      toNat_ofNat_valid _ (by omega)
    simp only [lowerChar, if_pos h, h32]
    rw [if_neg (by omega)]
  · simp only [lowerChar, if_neg h]

/-- Python `lower` is idempotent on character lists. -/
theorem pyLower_idem (l : List Char) : pyLower (pyLower l) = pyLower l := by
  simp only [pyLower, List.map_map]
  exact List.map_congr_left (fun c _ => lowerChar_idem c)

/-- The rendered digit character of `d < 10` has scalar value `48 + d`. -/
theorem digitChar_toNat (d : Nat) (h : d < 10) : (Char.ofNat (48 + d)).toNat = 48 + d :=
  toNat_ofNat_valid _ (by omega)

/-! ### Digit-string lemmas -/

/-- Every character produced by the digit renderer is a rendered digit. -/
theorem natDigitsAux_mem (fuel : Nat) : ∀ n, n ≤ fuel →
    ∀ c ∈ natDigitsAux fuel n, ∃ d, d < 10 ∧ c = Char.ofNat (48 + d) := by
  induction fuel with
  | zero => intro n _ c hc; simp [natDigitsAux] at hc
  | succ fuel ih =>
      intro n hn c hc
      by_cases h0 : n = 0
      · simp [natDigitsAux, h0] at hc
      · have hlt : n / 10 < n := Nat.div_lt_self (Nat.pos_of_ne_zero h0) (by norm_num)
        simp only [natDigitsAux, if_neg h0, List.mem_append, List.mem_singleton] at hc
        rcases hc with hc | hc
        · exact ih (n / 10) (by omega) c hc
        · exact ⟨n % 10, Nat.mod_lt _ (by omega), hc⟩

/-- Folding the place-value accumulator over the rendered digits of `n`
recovers `n` on top of the shifted accumulator. -/
theorem natDigitsAux_foldl (fuel : Nat) : ∀ n a, n ≤ fuel →
    List.foldl (fun x c => x * 10 + (c.toNat - 48)) a (natDigitsAux fuel n)
      = a * 10 ^ (natDigitsAux fuel n).length + n := by
  induction fuel with
  | zero =>
      intro n a hn
      have : n = 0 := by omega
      simp [natDigitsAux, this]
  | succ fuel ih =>
      intro n a hn
      by_cases h0 : n = 0
      · simp [natDigitsAux, h0]
      · have hlt : n / 10 < n := Nat.div_lt_self (Nat.pos_of_ne_zero h0) (by norm_num)
        have hm : n % 10 < 10 := Nat.mod_lt _ (by omega)
        simp only [natDigitsAux, if_neg h0, List.foldl_append, List.foldl_cons, List.foldl_nil,
          List.length_append, List.length_cons, List.length_nil]
        rw [ih (n / 10) a (by omega), digitChar_toNat (n % 10) hm]
        have hdm : 10 * (n / 10) + n % 10 = n := Nat.div_add_mod n 10
        have hadd : 48 + n % 10 - 48 = n % 10 := by omega
        rw [hadd]
        calc (a * 10 ^ (natDigitsAux fuel (n / 10)).length + n / 10) * 10 + n % 10
            = a * (10 ^ (natDigitsAux fuel (n / 10)).length * 10)
              + (10 * (n / 10) + n % 10) := by ring
          _ = a * 10 ^ ((natDigitsAux fuel (n / 10)).length + 0 + 1) + n := by
              rw [hdm, Nat.add_zero, pow_succ]

/-- Every character of `natDigitChars n` is an ASCII digit. -/
theorem natDigitChars_digits (n : Nat) :
    ∀ c ∈ natDigitChars n, 48 ≤ c.toNat ∧ c.toNat ≤ 57 := by
  intro c hc
  by_cases h0 : n = 0
  · subst h0
    simp [natDigitChars] at hc
    subst hc; decide
  · simp only [natDigitChars, if_neg h0] at hc
    obtain ⟨d, hd, rfl⟩ := natDigitsAux_mem (n + 1) n (by omega) c hc
    rw [digitChar_toNat d hd]
    omega

/-- The rendered digits of `n` are never the empty list. -/
theorem natDigitChars_ne_nil (n : Nat) : natDigitChars n ≠ [] := by
  by_cases h0 : n = 0
  · subst h0; simp [natDigitChars]
  · have hlt : n / 10 < n := Nat.div_lt_self (Nat.pos_of_ne_zero h0) (by norm_num)
    simp only [natDigitChars, if_neg h0, natDigitsAux, if_neg h0]
    intro h
    exact absurd (List.append_eq_nil.mp h).2 (by simp)

/-- Parsing the rendered digits of `n` recovers `n`. -/
theorem parseDigits_natDigitChars (n : Nat) : parseDigits (natDigitChars n) = some n := by
  by_cases h0 : n = 0
  · subst h0; decide
  · have hall : (natDigitChars n).all isDigitChar = true := by
      rw [List.all_eq_true]
      intro c hc
      have := natDigitChars_digits n c hc
      simp only [isDigitChar, decide_eq_true_eq]
      omega
    rw [parseDigits, if_neg (natDigitChars_ne_nil n), if_pos hall]
    simp only [natDigitChars, if_neg h0]
    rw [natDigitsAux_foldl (n + 1) n 0 (by omega)]
    simp

/-- Lowering does not change rendered digits. -/
theorem pyLower_natDigitChars (n : Nat) : pyLower (natDigitChars n) = natDigitChars n := by
  refine (List.map_congr_left fun c hc => ?_).trans (List.map_id _)
  have := natDigitChars_digits n c hc
  simp only [lowerChar, id]
  rw [if_neg (by omega)]

/-! ### Replace / split / int-parse lemmas -/

/-- Replacement leaves a list alone when the pattern head never occurs in it. -/
theorem replAllAux_no_head (p0 : Char) (ps rep : List Char) :
    ∀ fuel l, p0 ∉ l → replAllAux fuel p0 ps rep l = l := by
  intro fuel
  induction fuel with
  | zero => intro l _; rfl
  | succ fuel ih =>
      intro l hmem
      match l with
      | [] => rfl
      | c :: rest =>
          have hne : (p0 == c) = false := by
            simp only [beq_eq_false_iff_ne]
            exact fun h => hmem (h ▸ List.mem_cons_self c rest)
          have hcond : ((p0 :: ps).isPrefixOf (c :: rest)) = false := by
            rw [List.isPrefixOf_cons₂, hne, Bool.false_and]
          simp only [replAllAux, hcond, Bool.false_eq_true, if_false]
          rw [ih rest (fun h => hmem (List.mem_cons_of_mem c h))]

/-- Stripping a leading pattern occurrence: when the pattern head does not
reoccur, replacing the pattern with the empty list in `pat ++ X` yields `X`. -/
theorem replAll_strip_leading (p0 : Char) (ps X : List Char) (hX : p0 ∉ X) :
    replAll p0 ps [] ((p0 :: ps) ++ X) = X := by
  have hlen : ((p0 :: ps) ++ X).length = ps.length + X.length + 1 := by
    simp only [List.length_append, List.length_cons]
    omega
  rw [replAll, hlen]
  have hcond : ((p0 :: ps).isPrefixOf (p0 :: (ps ++ X))) = true := by
    rw [List.isPrefixOf_iff_prefix]
    exact List.prefix_append _ _
  simp only [List.cons_append, replAllAux, hcond, if_true, List.nil_append]
  rw [List.drop_left]
  exact replAllAux_no_head p0 ps [] _ X hX

/-- A one-character pattern replaced by the empty list is a filter. -/
theorem replAllAux_single (c0 : Char) :
    ∀ fuel l, l.length ≤ fuel →
      replAllAux fuel c0 [] [] l = l.filter (fun c => c ≠ c0) := by
  intro fuel
  induction fuel with
  | zero =>
      intro l hl
      have : l = [] := List.eq_nil_of_length_eq_zero (by omega)
      subst this; rfl
  | succ fuel ih =>
      intro l hl
      match l with
      | [] => rfl
      | c :: rest =>
          have hrest : rest.length ≤ fuel := by
            simp only [List.length_cons] at hl; omega
          by_cases hc : c = c0
          · subst hc
            have hcond : (([c] : List Char).isPrefixOf (c :: rest)) = true := by
              simp [List.isPrefixOf_cons₂]
            simp only [replAllAux, hcond, if_true, List.nil_append, List.length_nil,
              List.drop_zero, List.filter_cons]
            rw [ih rest hrest]
            simp
          · have hne : (c0 == c) = false := by
              simp only [beq_eq_false_iff_ne]
              exact fun h => hc h.symm
            have hcond : (([c0] : List Char).isPrefixOf (c :: rest)) = false := by
              rw [List.isPrefixOf_cons₂, hne, Bool.false_and]
            simp only [replAllAux, hcond, Bool.false_eq_true, if_false, List.filter_cons]
            rw [ih rest hrest]
            simp [hc]

/-- Removing all `')'` characters from `Y ++ [')']`, when `Y` holds none,
yields `Y`. -/
theorem replAll_drop_rparen (Y : List Char) (hY : ')' ∉ Y) :
    replAll ')' [] [] (Y ++ [')']) = Y := by
  rw [replAll, replAllAux_single ')' _ _ (Nat.le_refl _), List.filter_append]
  have h1 : Y.filter (fun c => c ≠ ')') = Y := by
    rw [List.filter_eq_self]
    intro a ha
    simp only [ne_eq, decide_not, Bool.not_eq_eq_eq_not, Bool.not_true, decide_eq_false_iff_not]
    exact fun h => hY (h ▸ ha)
  rw [h1]
  simp

/-- Splitting a comma-free list on commas keeps it whole. -/
theorem splitOnComma_no_comma (l : List Char) (h : ',' ∉ l) : splitOnComma l = [l] := by
  induction l with
  | nil => rfl
  | cons c rest ih =>
      have hc : ¬(c = ',') := fun hh => h (hh ▸ List.mem_cons_self c rest)
      have hrest := ih (fun hm => h (List.mem_cons_of_mem c hm))
      simp only [splitOnComma, if_neg hc, hrest]

/-- Splitting on the single comma separating two comma-free pieces. -/
theorem splitOnComma_append (ds ss : List Char) (hds : ',' ∉ ds) (hss : ',' ∉ ss) :
    splitOnComma (ds ++ ',' :: ss) = [ds, ss] := by
  induction ds with
  | nil =>
      simp [splitOnComma, splitOnComma_no_comma ss hss]
  | cons c rest ih =>
      have hc : ¬(c = ',') := fun hh => hds (hh ▸ List.mem_cons_self c rest)
      have hrest := ih (fun hm => hds (List.mem_cons_of_mem c hm))
      simp only [List.cons_append, splitOnComma, if_neg hc, List.append_eq, hrest]

/-- Python `int()` over a pure digit string returns the parsed value. -/
theorem pyInt_digits (l : List Char) (n : Nat) (hne : l ≠ [])
    (hdig : ∀ c ∈ l, 48 ≤ c.toNat ∧ c.toNat ≤ 57) (hp : parseDigits l = some n) :
    pyInt l = .ok (n : Int) := by
  match l with
  | [] => exact absurd rfl hne
  | c :: rest =>
      have hcd := hdig c (List.mem_cons_self c rest)
      have h1 : (c :: rest).dropWhile (fun x => x = ' ') = c :: rest := by
        rw [List.dropWhile_cons, if_neg]
        intro h
        simp only [decide_eq_true_eq] at h
        rw [h] at hcd
        simp at hcd
      have h2 : ((c :: rest).reverse).dropWhile (fun x => x = ' ') = (c :: rest).reverse := by
        match hrev : (c :: rest).reverse with
        | [] => rfl
        | d :: ds =>
            have hd : d ∈ c :: rest := by
              rw [← List.mem_reverse, hrev]
              exact List.mem_cons_self d ds
            have hdd := hdig d hd
            rw [List.dropWhile_cons, if_neg]
            intro h
            simp only [decide_eq_true_eq] at h
            rw [h] at hdd
            simp at hdd
      have hm : ¬(c = '-') := by
        intro h; rw [h] at hcd; simp at hcd
      have hplus : ¬(c = '+') := by
        intro h; rw [h] at hcd; simp at hcd
      simp only [pyInt, h1, h2, List.reverse_reverse, if_neg hm, if_neg hplus, hp]

/-! ### Evaluating `athena2pyarrow` on a rendered decimal tag -/

/-- A character outside the digit range never occurs in rendered digits. -/
theorem not_mem_natDigitChars (n : Nat) (c : Char) (h : 57 < c.toNat ∨ c.toNat < 48) :
    c ∉ natDigitChars n := fun hm => by
  have := natDigitChars_digits n c hm
  omega

/-- The tag dispatch of `athena2pyarrowL` reaches the decimal branch for any
input that starts with the eight characters `decimal(`. -/
theorem athena2pyarrowL_decimal (X : List Char) :
    athena2pyarrowL ("decimal(".data ++ X) =
      (match splitOnComma (replAll ')' [] []
          (replAll 'd' "ecimal(".data [] ("decimal(".data ++ X))) with
       | [ps, ss] => do
          let p ← pyInt ps
          let s ← pyInt ss
          mkDecimal128 p s
       | _ => .error (.valueError "cannot unpack decimal parameters")) := rfl

/-- Stripping the literal `decimal(` pattern from the front. -/
theorem replAll_strip_decimal (X : List Char) (hX : 'd' ∉ X) :
    replAll 'd' "ecimal(".data [] ("decimal(".data ++ X) = X :=
  replAll_strip_leading 'd' "ecimal(".data X hX

/-- Full evaluation of `athena2pyarrow` on a well-formed `decimal(p,s)` tag
with pyarrow-acceptable precision. -/
theorem athena2pyarrow_decimal_eval (p s : Nat) (hp1 : 1 ≤ p) (hp2 : p ≤ 38) :
    athena2pyarrow ("decimal(" ++ natStr p ++ "," ++ natStr s ++ ")")
      = .ok (.decimal128 (p : Int) (s : Int)) := by
  have hdata : ("decimal(" ++ natStr p ++ "," ++ natStr s ++ ")").data
      = "decimal(".data ++ (natDigitChars p ++ ',' :: (natDigitChars s ++ [')'])) := by
    simp only [String.data_append]
    simp [natStr, List.append_assoc]
  have hmapP : List.map lowerChar (natDigitChars p) = natDigitChars p :=
    pyLower_natDigitChars p
  have hmapS : List.map lowerChar (natDigitChars s) = natDigitChars s :=
    pyLower_natDigitChars s
  have hlow : pyLower ("decimal(".data ++ (natDigitChars p ++ ',' :: (natDigitChars s ++ [')'])))
      = "decimal(".data ++ (natDigitChars p ++ ',' :: (natDigitChars s ++ [')'])) := by
    simp only [pyLower, List.map_append, List.map_cons, List.map_nil, hmapP, hmapS,
      show lowerChar 'd' = 'd' from by decide, show lowerChar 'e' = 'e' from by decide,
      show lowerChar 'c' = 'c' from by decide, show lowerChar 'i' = 'i' from by decide,
      show lowerChar 'm' = 'm' from by decide, show lowerChar 'a' = 'a' from by decide,
      show lowerChar 'l' = 'l' from by decide, show lowerChar '(' = '(' from by decide,
      show lowerChar ',' = ',' from by decide, show lowerChar ')' = ')' from by decide]
  have hX : 'd' ∉ natDigitChars p ++ ',' :: (natDigitChars s ++ [')']) := by
    intro hm
    simp only [List.mem_append, List.mem_cons, List.mem_singleton] at hm
    rcases hm with hm | hm | hm | hm
    · exact not_mem_natDigitChars p 'd' (by decide) hm
    · exact absurd hm (by decide)
    · exact not_mem_natDigitChars s 'd' (by decide) hm
    · exact absurd hm (by decide)
  have hY : ')' ∉ natDigitChars p ++ ',' :: natDigitChars s := by
    intro hm
    simp only [List.mem_append, List.mem_cons] at hm
    rcases hm with hm | hm | hm
    · exact not_mem_natDigitChars p ')' (by decide) hm
    · exact absurd hm (by decide)
    · exact not_mem_natDigitChars s ')' (by decide) hm
  have hcp : ',' ∉ natDigitChars p := not_mem_natDigitChars p ',' (by decide)
  have hcs : ',' ∉ natDigitChars s := not_mem_natDigitChars s ',' (by decide)
  have hXY : natDigitChars p ++ ',' :: (natDigitChars s ++ [')'])
      = (natDigitChars p ++ ',' :: natDigitChars s) ++ [')'] := by
    simp [List.append_assoc]
  show athena2pyarrowL (pyLower ("decimal(" ++ natStr p ++ "," ++ natStr s ++ ")").data) = _
  rw [hdata, hlow, athena2pyarrowL_decimal, replAll_strip_decimal _ hX, hXY,
    replAll_drop_rparen _ hY, splitOnComma_append _ _ hcp hcs]
  have hip : pyInt (natDigitChars p) = Except.ok (p : Int) :=
    pyInt_digits _ p (natDigitChars_ne_nil p) (natDigitChars_digits p)
      (parseDigits_natDigitChars p)
  have his : pyInt (natDigitChars s) = Except.ok (s : Int) :=
    pyInt_digits _ s (natDigitChars_ne_nil s) (natDigitChars_digits s)
      (parseDigits_natDigitChars s)
  simp only [hip, his]
  show mkDecimal128 (p : Int) (s : Int) = _
  rw [mkDecimal128, if_pos ⟨by exact_mod_cast hp1, by exact_mod_cast hp2⟩]

/-! ### Claims about the pure type mappers -/

/-- C1 (amended): composing `athena2pyarrow` then `pyarrow2athena` returns the
tag itself for every canonical non-composite tag — `tinyint`, `smallint`,
`int`, `bigint`, `float`, `double`, `boolean`, `string`, `timestamp`, `date`,
`binary` — and for `decimal(p,s)` with exact precision and scale whenever
`1 ≤ p ≤ 38` (the range `pa.decimal128` accepts). The alias tags `integer`,
`char`, `varchar` return the canonical spelling instead of themselves, and
`varbinary` does not round-trip at all (see C2), so the claim's original
vocabulary had to be restricted to the canonical tags. -/
theorem claim_C1_roundtrip_canonical :
    (∀ t ∈ (["tinyint", "smallint", "int", "bigint", "float", "double", "boolean",
             "string", "timestamp", "date", "binary"] : List String),
        (athena2pyarrow t).bind pyarrow2athena = .ok t) ∧
    (∀ p s : Nat, 1 ≤ p → p ≤ 38 →
        (athena2pyarrow ("decimal(" ++ natStr p ++ "," ++ natStr s ++ ")")).bind pyarrow2athena
          = .ok ("decimal(" ++ natStr p ++ "," ++ natStr s ++ ")")) := by
  constructor
  · intro t ht
    fin_cases ht <;> rfl
  · intro p s hp1 hp2
    rw [athena2pyarrow_decimal_eval p s hp1 hp2]
    rfl

/-- Witness for C1: the round trip at the concrete tags `binary` and
`decimal(10,2)`. -/
theorem claim_C1_roundtrip_canonical_witness :
    (athena2pyarrow "binary").bind pyarrow2athena = .ok "binary" ∧
    (athena2pyarrow "decimal(10,2)").bind pyarrow2athena = .ok "decimal(10,2)" := by
  constructor
  · exact claim_C1_roundtrip_canonical.1 "binary" (by decide)
  · exact claim_C1_roundtrip_canonical.2 10 2 (by decide) (by decide)

/-- Counterexample to C1 as stated: the vocabulary tag `integer` round-trips
to the distinct tag `int`, not to itself. -/
theorem claim_C1_cex_integer :
    (athena2pyarrow "integer").bind pyarrow2athena = .ok "int" ∧ "int" ≠ "integer" :=
  ⟨rfl, by decide⟩

/-- C2 (code bug): line 39 of the source reads
`if dtype in ("binary" or "varbinary"):`, and `("binary" or "varbinary")`
evaluates to the single string `"binary"`, turning the test into substring
containment. Hence `varbinary` — a tag of the documented vocabulary — raises
`UnsupportedType`, while the out-of-vocabulary string `nary` (a substring of
`binary`) is accepted; the sibling `athena2pandas` in the same file uses the
intended tuple and does accept `varbinary`. -/
theorem claim_C2_binary_slip :
    athena2pyarrow "varbinary"
        = .error (.unsupportedType "Unsupported Athena type: varbinary") ∧
    athena2pyarrow "nary" = .ok .binary ∧
    athena2pandas "varbinary" = .ok "bytes" :=
  ⟨rfl, rfl, rfl⟩

/-- C9 (confirmed): `athena2pyarrow` is case-insensitive — its result on any
tag equals its result on the lowercased tag, and in particular `BIGINT`,
`bigint` and `BigInt` all map to the 64-bit signed integer columnar type. -/
theorem claim_C9_case_insensitive :
    (∀ s : String, athena2pyarrow s = athena2pyarrow (pyLowerStr s)) ∧
    athena2pyarrow "BIGINT" = .ok .int64 ∧
    athena2pyarrow "bigint" = .ok .int64 ∧
    athena2pyarrow "BigInt" = .ok .int64 := by
  refine ⟨fun s => ?_, rfl, rfl, rfl⟩
  show athena2pyarrowL (pyLower s.data) = athena2pyarrowL (pyLower (pyLowerStr s).data)
  rw [show (pyLowerStr s).data = pyLower s.data from rfl, pyLower_idem]

/-! ### Python dict model -/

/-- Python dict update `d[k] = v`: overwrite in place when the key exists,
otherwise append at the end (insertion order preserved). -/
def dictInsert {α : Type} (k : String) (v : α) : List (String × α) → List (String × α)
  | [] => [(k, v)]
  | (k', v') :: rest => if k' = k then (k, v) :: rest else (k', v') :: dictInsert k v rest

/-- Python dict lookup `d[k]`, `none` when the key is absent. -/
def dictGet? {α : Type} : List (String × α) → String → Option α
  | [], _ => none
  | (k', v) :: rest, k => if k' = k then some v else dictGet? rest k

/-- Looking up the freshly written key returns the fresh value. -/
theorem dictGet?_insert_self {α : Type} (k : String) (v : α) (d : List (String × α)) :
    dictGet? (dictInsert k v d) k = some v := by
  induction d with
  | nil => simp [dictInsert, dictGet?]
  | cons kv rest ih =>
      obtain ⟨k', v'⟩ := kv
      by_cases h : k' = k
      · simp [dictInsert, dictGet?, h]
      · simp only [dictInsert, if_neg h, dictGet?, ih]

/-- Writing one key does not disturb the lookup of another. -/
theorem dictGet?_insert_other {α : Type} (k' k : String) (v : α) (d : List (String × α))
    (h : k' ≠ k) : dictGet? (dictInsert k' v d) k = dictGet? d k := by
  induction d with
  | nil => simp [dictInsert, dictGet?, if_neg h]
  | cons kv rest ih =>
      obtain ⟨k0, v0⟩ := kv
      by_cases h0 : k0 = k'
      · subst h0
        simp only [dictInsert, if_pos rfl, dictGet?]
        rw [if_neg h, if_neg h]
      · simp only [dictInsert, if_neg h0, dictGet?]
        by_cases h1 : k0 = k
        · rw [if_pos h1, if_pos h1]
        · rw [if_neg h1, if_neg h1, ih]

/-- Updating a dict never changes its key multiset beyond adding the new key. -/
theorem dictInsert_keys {α : Type} (k : String) (v : α) (d : List (String × α)) :
    (dictInsert k v d).map Prod.fst
      = if k ∈ d.map Prod.fst then d.map Prod.fst else d.map Prod.fst ++ [k] := by
  induction d with
  | nil => simp [dictInsert]
  | cons kv rest ih =>
      obtain ⟨k0, v0⟩ := kv
      by_cases h0 : k0 = k
      · subst h0
        simp [dictInsert]
      · simp only [dictInsert, if_neg h0, List.map_cons, ih]
        by_cases hm : k ∈ rest.map Prod.fst
        · rw [if_pos hm, if_pos (List.mem_cons_of_mem _ hm)]
        · rw [if_neg hm, if_neg ?_]
          · simp
          · simp only [List.mem_cons]
            rintro (h | h)
            · exact h0 h.symm
            · exact hm h

/-- Updating preserves distinctness of the keys. -/
theorem dictInsert_nodup {α : Type} (k : String) (v : α) (d : List (String × α))
    (h : (d.map Prod.fst).Nodup) : ((dictInsert k v d).map Prod.fst).Nodup := by
  rw [dictInsert_keys]
  by_cases hm : k ∈ d.map Prod.fst
  · rwa [if_pos hm]
  · rw [if_neg hm]
    simpa using List.Nodup.append h (by simp) (by simpa using hm)

/-- Inserting a fresh key appends the pair at the end of the dict. -/
theorem dictInsert_fresh {α : Type} (k : String) (v : α) (d : List (String × α))
    (h : k ∉ d.map Prod.fst) : dictInsert k v d = d ++ [(k, v)] := by
  induction d with
  | nil => rfl
  | cons kv rest ih =>
      obtain ⟨k0, v0⟩ := kv
      simp only [List.map_cons, List.mem_cons] at h
      push_neg at h
      have hne : ¬(k0 = k) := fun hh => h.1 hh.symm
      simp only [dictInsert, if_neg hne, List.cons_append]
      rw [ih h.2]

/-! ### Schema inferrer -/

/-- A pandas DataFrame as seen by the schema inferrer: the declared columns in
order, each paired with the string rendering of its pandas dtype. -/
structure PandasDF where
  cols : List (String × String)

/-- Python `df.columns`. -/
def PandasDF.columns (df : PandasDF) : List String := df.cols.map Prod.fst

/-- First loop body of `pyarrow_types_from_pandas`: exception dtypes map
directly, ignored columns map to `None`, everything else is queued for the
generic inference pass. The accumulator is `(cols, cols_dtypes)`. -/
def inferStep (ignore_cols : List String)
    (acc : List String × List (String × Option PaDataType)) (nd : String × String) :
    List String × List (String × Option PaDataType) :=
  if nd.1 ∈ ignore_cols then (acc.1, dictInsert nd.1 Option.none acc.2)
  else if nd.2 = "Int8" then (acc.1, dictInsert nd.1 (some .int8) acc.2)
  else if nd.2 = "Int16" then (acc.1, dictInsert nd.1 (some .int16) acc.2)
  else if nd.2 = "Int32" then (acc.1, dictInsert nd.1 (some .int32) acc.2)
  else if nd.2 = "Int64" then (acc.1, dictInsert nd.1 (some .int64) acc.2)
  else if nd.2 = "string" then (acc.1, dictInsert nd.1 (some .string) acc.2)
  else (acc.1 ++ [nd.1], acc.2)

/-- Result of the first loop of `pyarrow_types_from_pandas`. -/
def inferSplit (df : PandasDF) (ignore_cols : List String) :
    List String × List (String × Option PaDataType) :=
  df.cols.foldl (inferStep ignore_cols) ([], [])

/-- `pyarrow_types_from_pandas` from the source, parameterised by the external
collaborator `pa.Schema.from_pandas`: `fromPandas requested preserveIndex`
returns the inferred fields of the projected frame `df[requested]`. The final
dict comprehension raises `KeyError` when a declared column received no type. -/
def pyarrow_types_from_pandas
    (fromPandas : List String → Bool → List (String × PaDataType))
    (df : PandasDF) (index : Bool) (ignore_cols : List String) :
    Except WErr (List (String × Option PaDataType)) :=
  let phase1 := inferSplit df ignore_cols
  let fields := fromPandas phase1.1 index
  let cd := fields.foldl (fun cd f => dictInsert f.1 (some f.2) cd) phase1.2
  let indexes := fields.foldl
    (fun ix f => if f.1 ∉ df.columns ∧ index = true then ix ++ [f.1] else ix) []
  (df.columns ++ indexes).mapM (fun n =>
    match dictGet? cd n with
    | some v => .ok (n, v)
    | none => .error (.keyError n))

/-- Loop body of `athena_types_from_pandas`: overridden (`None`) entries take
the caller's cast string, inferred entries go through `pyarrow2athena`. -/
def athenaStep (casts : List (String × String))
    (acc : List (String × String)) (kv : String × Option PaDataType) :
    Except WErr (List (String × String)) :=
  match kv.2 with
  | Option.none =>
      match dictGet? casts kv.1 with
      | some c => .ok (dictInsert kv.1 c acc)
      | Option.none => .error (.keyError kv.1)
  | some v => do
      let a ← pyarrow2athena v
      .ok (dictInsert kv.1 a acc)

/-- `athena_types_from_pandas` from the source: infer columnar types with the
override names excluded, then map to catalog strings, overrides winning. -/
def athena_types_from_pandas
    (fromPandas : List String → Bool → List (String × PaDataType))
    (df : PandasDF) (index : Bool) (cast_columns : List (String × String)) :
    Except WErr (List (String × String)) := do
  let casts := cast_columns
  let pats ← pyarrow_types_from_pandas fromPandas df index (casts.map Prod.fst)
  pats.foldlM (athenaStep casts) []

/-- Loop body of `athena_types_from_pandas_partitioned`: route by membership
in the partition list. -/
def splitStep (partitions : List String)
    (acc : List (String × String) × List (String × String)) (kv : String × String) :
    List (String × String) × List (String × String) :=
  if kv.1 ∈ partitions then (acc.1, dictInsert kv.1 kv.2 acc.2)
  else (dictInsert kv.1 kv.2 acc.1, acc.2)

/-- `athena_types_from_pandas_partitioned` from the source. -/
def athena_types_from_pandas_partitioned
    (fromPandas : List String → Bool → List (String × PaDataType))
    (df : PandasDF) (index : Bool) (partition_cols : List String)
    (cast_columns : List (String × String)) :
    Except WErr (List (String × String) × List (String × String)) := do
  let m ← athena_types_from_pandas fromPandas df index cast_columns
  .ok (m.foldl (splitStep partition_cols) ([], []))

/-! ### Invariants of the schema inferrer -/

/-- A successful dict lookup means the key is present. -/
theorem dictGet?_some_mem {α : Type} (d : List (String × α)) (k : String) (v : α)
    (h : dictGet? d k = some v) : k ∈ d.map Prod.fst := by
  induction d with
  | nil => simp [dictGet?] at h
  | cons kv rest ih =>
      obtain ⟨k', v'⟩ := kv
      simp only [dictGet?] at h
      by_cases h0 : k' = k
      · simp [h0]
      · rw [if_neg h0] at h
        simp only [List.map_cons, List.mem_cons]
        exact Or.inr (ih h)

/-- Ignored keys always carry `None` in the exception dict after the first
loop of `pyarrow_types_from_pandas`. -/
theorem inferSplit_ignored (ignore_cols : List String) (k : String) (hk : k ∈ ignore_cols) :
    ∀ (cols : List (String × String)) (acc : List String × List (String × Option PaDataType)),
      (dictGet? acc.2 k = some Option.none ∨ k ∈ cols.map Prod.fst) →
      dictGet? (cols.foldl (inferStep ignore_cols) acc).2 k = some Option.none := by
  intro cols
  induction cols with
  | nil =>
      intro acc hacc
      rcases hacc with h | h
      · exact h
      · simp at h
  | cons nd rest ih =>
      intro acc hacc
      rw [List.foldl_cons]
      apply ih
      by_cases hkey : nd.1 = k
      · left
        have hig : nd.1 ∈ ignore_cols := hkey ▸ hk
        simp only [inferStep, if_pos hig]
        rw [hkey]
        exact dictGet?_insert_self k Option.none acc.2
      · rcases hacc with h | h
        · left
          unfold inferStep
          split_ifs <;>
            first
              | exact h
              | (show dictGet? (dictInsert nd.1 _ acc.2) k = some Option.none
                 rw [dictGet?_insert_other _ _ _ _ hkey]
                 exact h)
        · simp only [List.map_cons, List.mem_cons] at h
          rcases h with h | h
          · exact absurd h.symm hkey
          · right
            exact h

/-- The second loop of `pyarrow_types_from_pandas` does not disturb the entry
of a key that names none of the inferred fields. -/
theorem fieldsFold_other (k : String) :
    ∀ (fields : List (String × PaDataType)) (cd : List (String × Option PaDataType)),
      k ∉ fields.map Prod.fst →
      dictGet? (fields.foldl (fun cd f => dictInsert f.1 (some f.2) cd) cd) k
        = dictGet? cd k := by
  intro fields
  induction fields with
  | nil => intro cd _; rfl
  | cons f rest ih =>
      intro cd hk
      simp only [List.map_cons, List.mem_cons] at hk
      push_neg at hk
      rw [List.foldl_cons, ih _ hk.2, dictGet?_insert_other _ _ _ _ (fun h => hk.1 h.symm)]

/-- The final comprehension of `pyarrow_types_from_pandas`: on success it
emits exactly the requested names, each paired with its dict entry. -/
theorem mapM_lookup_spec (cd : List (String × Option PaDataType)) :
    ∀ (names : List String) (pats : List (String × Option PaDataType)),
      names.mapM (fun n =>
        match dictGet? cd n with
        | some v => Except.ok (n, v)
        | Option.none => Except.error (WErr.keyError n)) = .ok pats →
      pats.map Prod.fst = names ∧ ∀ kv ∈ pats, dictGet? cd kv.1 = some kv.2 := by
  intro names
  induction names with
  | nil =>
      intro pats h
      simp only [List.mapM_nil, pure, Except.pure, Except.ok.injEq] at h
      subst h
      simp
  | cons n rest ih =>
      intro pats h
      rw [List.mapM_cons] at h
      cases hcd : dictGet? cd n with
      | none =>
          rw [hcd] at h
          simp [bind, Except.bind] at h
      | some v =>
          rw [hcd] at h
          cases hrest : rest.mapM (fun n =>
              match dictGet? cd n with
              | some v => Except.ok (n, v)
              | Option.none => Except.error (WErr.keyError n)) with
          | error e =>
              rw [hrest] at h
              simp [bind, Except.bind] at h
          | ok l =>
              rw [hrest] at h
              simp only [bind, Except.bind, pure, Except.pure, Except.ok.injEq] at h
              subst h
              obtain ⟨hkeys, hvals⟩ := ih l hrest
              refine ⟨by simp [hkeys], ?_⟩
              intro kv hm
              rcases List.mem_cons.mp hm with hm | hm
              · subst hm
                exact hcd
              · exact hvals kv hm

/-- A successful `athenaStep` writes exactly the loop key, and writes the
caller's cast string whenever the inferred entry was `None`. -/
theorem athenaStep_ok (casts : List (String × String)) (acc : List (String × String))
    (kv : String × Option PaDataType) (acc' : List (String × String))
    (h : athenaStep casts acc kv = .ok acc') :
    ∃ x, acc' = dictInsert kv.1 x acc ∧
      (kv.2 = Option.none → dictGet? casts kv.1 = some x) := by
  obtain ⟨k0, v0⟩ := kv
  cases v0 with
  | none =>
      cases hcast : dictGet? casts k0 with
      | none => rw [athenaStep, hcast] at h; simp at h
      | some c =>
          rw [athenaStep, hcast] at h
          injection h with h2
          refine ⟨c, h2.symm, fun _ => ?_⟩
          rfl
  | some v =>
      cases hpa : pyarrow2athena v with
      | error e =>
          rw [athenaStep] at h
          simp only [hpa, bind, Except.bind] at h
          exact absurd h (by simp)
      | ok a =>
          rw [athenaStep] at h
          simp only [hpa, bind, Except.bind, Except.ok.injEq] at h
          refine ⟨a, h.symm, fun hv => ?_⟩
          exact absurd hv (by simp)

/-- Folding `athenaStep` over entries whose `k`-rows are all overridden keeps
the override value at `k`. -/
theorem athena_foldlM_override (casts : List (String × String)) (k c : String)
    (hc : dictGet? casts k = some c) :
    ∀ (pats : List (String × Option PaDataType)) (acc m : List (String × String)),
      (∀ kv ∈ pats, kv.1 = k → kv.2 = Option.none) →
      (dictGet? acc k = some c ∨ k ∈ pats.map Prod.fst) →
      pats.foldlM (athenaStep casts) acc = .ok m →
      dictGet? m k = some c := by
  intro pats
  induction pats with
  | nil =>
      intro acc m hnone hin h
      simp only [List.foldlM_nil, pure, Except.pure, Except.ok.injEq] at h
      subst h
      rcases hin with hin | hin
      · exact hin
      · simp at hin
  | cons kv rest ih =>
      intro acc m hnone hin h
      rw [List.foldlM_cons] at h
      cases hstep : athenaStep casts acc kv with
      | error e =>
          rw [hstep] at h
          simp [bind, Except.bind] at h
      | ok acc' =>
          rw [hstep] at h
          simp only [bind, Except.bind] at h
          obtain ⟨x, hx, himp⟩ := athenaStep_ok casts acc kv acc' hstep
          refine ih acc' m (fun kv' hm hk => hnone kv' (List.mem_cons_of_mem _ hm) hk) ?_ h
          by_cases hkey : kv.1 = k
          · left
            have hv : kv.2 = Option.none := hnone kv (List.mem_cons_self _ _) hkey
            have hxc : x = c := by
              have := himp hv
              rw [hkey, hc] at this
              exact (Option.some.injEq _ _ ▸ this).symm
            subst hxc
            rw [hx, hkey]
            exact dictGet?_insert_self k x acc
          · rcases hin with hin | hin
            · left
              rw [hx, dictGet?_insert_other _ _ _ _ hkey]
              exact hin
            · simp only [List.map_cons, List.mem_cons] at hin
              rcases hin with hin | hin
              · exact absurd hin.symm hkey
              · right
                exact hin

/-- C3 (confirmed): for every dataframe, index flag and override mapping, a
column named both in the overrides and in the dataframe receives exactly the
override's catalog string in the inferred schema — columnar inference is
bypassed for it (the hypothesis `hnof` records that the collaborator infers no
field for a column that was excluded from its input). -/
theorem claim_C3_override_wins
    (fromPandas : List String → Bool → List (String × PaDataType))
    (df : PandasDF) (index : Bool) (casts : List (String × String))
    (k c : String) (m : List (String × String))
    (hk : k ∈ df.columns)
    (hc : dictGet? casts k = some c)
    (hnof : k ∉ (fromPandas (inferSplit df (casts.map Prod.fst)).1 index).map Prod.fst)
    (hm : athena_types_from_pandas fromPandas df index casts = .ok m) :
    dictGet? m k = some c := by
  rw [athena_types_from_pandas] at hm
  cases hpats : pyarrow_types_from_pandas fromPandas df index (casts.map Prod.fst) with
  | error e =>
      rw [hpats] at hm
      simp [bind, Except.bind] at hm
  | ok pats =>
      rw [hpats] at hm
      simp only [bind, Except.bind] at hm
      rw [pyarrow_types_from_pandas] at hpats
      obtain ⟨hkeys, hvals⟩ := mapM_lookup_spec _ _ _ hpats
      have hkmem : k ∈ casts.map Prod.fst := dictGet?_some_mem casts k c hc
      have hcd : dictGet?
          ((fromPandas (inferSplit df (casts.map Prod.fst)).1 index).foldl
            (fun cd f => dictInsert f.1 (some f.2) cd)
            (inferSplit df (casts.map Prod.fst)).2) k = some Option.none := by
        rw [fieldsFold_other k _ _ hnof]
        exact inferSplit_ignored (casts.map Prod.fst) k hkmem df.cols ([], [])
          (Or.inr hk)
      refine athena_foldlM_override casts k c hc pats [] m ?_ ?_ hm
      · intro kv hmem hkv
        have := hvals kv hmem
        rw [hkv, hcd] at this
        exact (Option.some.injEq _ _ ▸ this).symm
      · right
        rw [hkeys]
        exact List.mem_append_left _ hk

/-- Witness for C3: the spec's own example — overriding `id` to `string` on a
frame inferred as `{id: bigint, name: string}` yields `id: string`. -/
theorem claim_C3_override_wins_witness :
    athena_types_from_pandas (fun _ _ => []) ⟨[("id", "Int64"), ("name", "string")]⟩
        false [("id", "string")] = .ok [("id", "string"), ("name", "string")] ∧
    dictGet? [("id", "string"), ("name", "string")] "id" = some "string" :=
  ⟨rfl, claim_C3_override_wins (fun _ _ => []) ⟨[("id", "Int64"), ("name", "string")]⟩
    false [("id", "string")] "id" "string" [("id", "string"), ("name", "string")]
    (by decide) (by decide) (by decide) rfl⟩

/-- Folding `athenaStep` preserves distinctness of the accumulated keys. -/
theorem athena_foldlM_nodup (casts : List (String × String)) :
    ∀ (pats : List (String × Option PaDataType)) (acc m : List (String × String)),
      (acc.map Prod.fst).Nodup →
      pats.foldlM (athenaStep casts) acc = .ok m →
      (m.map Prod.fst).Nodup := by
  intro pats
  induction pats with
  | nil =>
      intro acc m hacc h
      simp only [List.foldlM_nil, pure, Except.pure, Except.ok.injEq] at h
      subst h
      exact hacc
  | cons kv rest ih =>
      intro acc m hacc h
      rw [List.foldlM_cons] at h
      cases hstep : athenaStep casts acc kv with
      | error e =>
          rw [hstep] at h
          simp [bind, Except.bind] at h
      | ok acc' =>
          rw [hstep] at h
          simp only [bind, Except.bind] at h
          obtain ⟨x, hx, -⟩ := athenaStep_ok casts acc kv acc' hstep
          exact ih acc' m (hx ▸ dictInsert_nodup _ _ _ hacc) h

/-- The partition-splitting fold routes each entry of a distinct-keyed dict to
exactly one side, appending in iteration order. -/
theorem split_fold_spec (partitions : List String) :
    ∀ (m acc1 acc2 : List (String × String)),
      (m.map Prod.fst).Nodup →
      (∀ k ∈ m.map Prod.fst, k ∉ acc1.map Prod.fst ∧ k ∉ acc2.map Prod.fst) →
      m.foldl (splitStep partitions) (acc1, acc2)
        = (acc1 ++ m.filter (fun kv => decide (kv.1 ∉ partitions)),
           acc2 ++ m.filter (fun kv => decide (kv.1 ∈ partitions))) := by
  intro m
  induction m with
  | nil => intro acc1 acc2 _ _; simp
  | cons kv rest ih =>
      intro acc1 acc2 hnd hfresh
      obtain ⟨hk1, hk2⟩ := hfresh kv.1 (by simp)
      simp only [List.map_cons, List.nodup_cons] at hnd
      rw [List.foldl_cons]
      by_cases hp : kv.1 ∈ partitions
      · rw [show splitStep partitions (acc1, acc2) kv
            = (acc1, dictInsert kv.1 kv.2 acc2) from by rw [splitStep, if_pos hp]]
        rw [dictInsert_fresh _ _ _ hk2]
        rw [ih acc1 (acc2 ++ [kv]) hnd.2 ?_]
        · simp [List.filter_cons, hp, List.append_assoc]
        · intro k hkrest
          refine ⟨(hfresh k (List.mem_cons_of_mem _ hkrest)).1, ?_⟩
          simp only [List.map_append, List.mem_append, List.map_cons, List.map_nil,
            List.mem_singleton]
          rintro (h | h)
          · exact (hfresh k (List.mem_cons_of_mem _ hkrest)).2 h
          · exact hnd.1 (h ▸ hkrest)
      · rw [show splitStep partitions (acc1, acc2) kv
            = (dictInsert kv.1 kv.2 acc1, acc2) from by rw [splitStep, if_neg hp]]
        rw [dictInsert_fresh _ _ _ hk1]
        rw [ih (acc1 ++ [kv]) acc2 hnd.2 ?_]
        · simp [List.filter_cons, hp, List.append_assoc]
        · intro k hkrest
          refine ⟨?_, (hfresh k (List.mem_cons_of_mem _ hkrest)).2⟩
          simp only [List.map_append, List.mem_append, List.map_cons, List.map_nil,
            List.mem_singleton]
          rintro (h | h)
          · exact (hfresh k (List.mem_cons_of_mem _ hkrest)).1 h
          · exact hnd.1 (h ▸ hkrest)

/-- C5 (amended): `athena_types_from_pandas_partitioned` splits the inferred
schema by membership in the partition list — every inferred column lands in
exactly one of the two mappings and their key sets are disjoint — but BOTH
sides keep the inferred schema's (dataframe declaration) order: the partition
mapping is the membership filter of the inferred schema, not a reordering by
the partition-key list (see the counterexample for the original order claim). -/
theorem claim_C5_partition_split
    (fromPandas : List String → Bool → List (String × PaDataType))
    (df : PandasDF) (index : Bool) (pc : List String)
    (casts : List (String × String)) (m cp pp : List (String × String))
    (hm : athena_types_from_pandas fromPandas df index casts = .ok m)
    (hsplit : athena_types_from_pandas_partitioned fromPandas df index pc casts
      = .ok (cp, pp)) :
    cp = m.filter (fun kv => decide (kv.1 ∉ pc)) ∧
    pp = m.filter (fun kv => decide (kv.1 ∈ pc)) ∧
    (∀ kv ∈ m, (kv.1 ∈ pc ∧ kv ∈ pp) ∨ (kv.1 ∉ pc ∧ kv ∈ cp)) ∧
    (∀ k, ¬(k ∈ cp.map Prod.fst ∧ k ∈ pp.map Prod.fst)) := by
  have hnd : (m.map Prod.fst).Nodup := by
    rw [athena_types_from_pandas] at hm
    cases hpats : pyarrow_types_from_pandas fromPandas df index (casts.map Prod.fst) with
    | error e =>
        rw [hpats] at hm
        simp [bind, Except.bind] at hm
    | ok pats =>
        rw [hpats] at hm
        simp only [bind, Except.bind] at hm
        exact athena_foldlM_nodup casts pats [] m (by simp) hm
  rw [athena_types_from_pandas_partitioned, hm] at hsplit
  simp only [bind, Except.bind, Except.ok.injEq] at hsplit
  rw [split_fold_spec pc m [] [] hnd (by simp)] at hsplit
  simp only [List.nil_append] at hsplit
  obtain ⟨hcp, hpp⟩ := Prod.mk.injEq _ _ _ _ ▸ hsplit
  refine ⟨hcp.symm, hpp.symm, ?_, ?_⟩
  · intro kv hkv
    by_cases hp : kv.1 ∈ pc
    · exact Or.inl ⟨hp, by rw [hpp.symm]; exact List.mem_filter.mpr ⟨hkv, by simpa using hp⟩⟩
    · exact Or.inr ⟨hp, by rw [hcp.symm]; exact List.mem_filter.mpr ⟨hkv, by simpa using hp⟩⟩
  · intro k ⟨hkc, hkp⟩
    rw [hcp.symm] at hkc
    rw [hpp.symm] at hkp
    obtain ⟨kv1, hm1, hk1⟩ := List.mem_map.mp hkc
    obtain ⟨kv2, hm2, hk2⟩ := List.mem_map.mp hkp
    have h1 := (List.mem_filter.mp hm1).2
    have h2 := (List.mem_filter.mp hm2).2
    simp only [decide_eq_true_eq] at h1 h2
    exact h1 (hk1 ▸ hk2 ▸ h2 : kv1.1 ∈ pc)

/-- Witness for C5: the spec's example with `partitionKeys=["name"]` — columns
`{id: bigint}`, partitions `{name: string}` — instantiating the amended
characterization. -/
theorem claim_C5_partition_split_witness :
    ([("id", "bigint")] : List (String × String))
        = [("id", "bigint"), ("name", "string")].filter
            (fun kv => decide (kv.1 ∉ (["name"] : List String))) ∧
    ([("name", "string")] : List (String × String))
        = [("id", "bigint"), ("name", "string")].filter
            (fun kv => decide (kv.1 ∈ (["name"] : List String))) ∧
    (∀ kv ∈ ([("id", "bigint"), ("name", "string")] : List (String × String)),
        (kv.1 ∈ (["name"] : List String) ∧ kv ∈ [("name", "string")]) ∨
        (kv.1 ∉ (["name"] : List String) ∧ kv ∈ [("id", "bigint")])) ∧
    (∀ k, ¬(k ∈ ([("id", "bigint")] : List (String × String)).map Prod.fst ∧
            k ∈ ([("name", "string")] : List (String × String)).map Prod.fst)) :=
  claim_C5_partition_split (fun _ _ => []) ⟨[("id", "Int64"), ("name", "string")]⟩
    false ["name"] [] [("id", "bigint"), ("name", "string")]
    [("id", "bigint")] [("name", "string")] rfl rfl

/-- Counterexample to C5 as stated: with partition list `["b", "a"]` the
partition mapping comes out in dataframe order `a, b`, not in the order given
by the partition-key list. -/
theorem claim_C5_cex_order :
    athena_types_from_pandas_partitioned (fun _ _ => []) ⟨[("a", "Int64"), ("b", "Int64")]⟩
        false ["b", "a"] []
      = .ok ([], [("a", "bigint"), ("b", "bigint")]) ∧
    ([("a", "bigint"), ("b", "bigint")] : List (String × String)).map Prod.fst ≠ ["b", "a"] :=
  ⟨rfl, by decide⟩

/-- C7 (confirmed): `pyarrow2athena` on the untyped null marker always fails
with `UndetectedType` and never returns a default string; consequently schema
inference over a dataframe whose column is inferred as all-null (the
collaborator reports the null columnar type for it) fails with
`UndetectedType` instead of silently defaulting the column's type. -/
theorem claim_C7_null_undetected :
    pyarrow2athena .null = .error (.undetectedType
      "We can not infer the data type from an entire null object column") ∧
    (∀ name : String,
      athena_types_from_pandas (fun _ _ => [(name, PaDataType.null)])
          ⟨[(name, "object")]⟩ false []
        = .error (.undetectedType
            "We can not infer the data type from an entire null object column")) := by
  refine ⟨rfl, fun name => ?_⟩
  rw [athena_types_from_pandas, pyarrow_types_from_pandas]
  simp only [List.map_nil]
  rw [show inferSplit ⟨[(name, "object")]⟩ [] = ([name], []) from rfl]
  simp only [PandasDF.columns, List.map_cons, List.map_nil, List.foldl_cons, List.foldl_nil,
    Bool.false_eq_true, and_false, if_false, List.append_nil, List.mapM_cons, List.mapM_nil]
  rw [show dictGet? (dictInsert name (some PaDataType.null) []) name
      = some (some PaDataType.null) from dictGet?_insert_self _ _ _]
  simp [bind, Except.bind, pure, Except.pure, List.foldlM_cons, List.foldlM_nil,
    athenaStep, pyarrow2athena]

/-! ### Type-directed caster -/

/-- Python `Decimal` values: a finite value keeps the sign, the coefficient
digits and the exponent (`Decimal("1.50")` is coefficient `150`, exponent
`-2`), plus the special not-a-number / infinity forms the parser accepts. -/
inductive DecValue where
  | num (neg : Bool) (coeff : Nat) (exp : Int)
  | nanv
  | infv (neg : Bool)
deriving DecidableEq, Repr

/-- A pandas cell value as observed by the caster: the explicit absent-value
marker (`None` / `NaN` / `NaT` / `pd.NA`), strings, integers, dates,
timestamps, decimals and byte sequences. -/
inductive Cell where
  | absent
  | s (v : String)
  | i (v : Int)
  | date (y m d : Nat)
  | ts (y m d hh mi se : Nat)
  | dec (d : DecValue)
  | bytes (bs : List Nat)
deriving DecidableEq, Repr

/-- General one-character split (used by the collaborator models below). -/
def splitOnCharL (sep : Char) : List Char → List (List Char)
  | [] => [[]]
  | c :: rest =>
      if c = sep then [] :: splitOnCharL sep rest
      else
        match splitOnCharL sep rest with
        | [] => [[c]]
        | piece :: pieces => (c :: piece) :: pieces

/-- Place value of a digit list (0 for the empty list). -/
def digitsVal (l : List Char) : Nat := l.foldl (fun a c => a * 10 + (c.toNat - 48)) 0

/-- Exactly two digits. -/
def parse2 (l : List Char) : Option Nat :=
  if l.length = 2 ∧ l.all isDigitChar then some (digitsVal l) else none

/-- Exactly four digits. -/
def parse4 (l : List Char) : Option Nat :=
  if l.length = 4 ∧ l.all isDigitChar then some (digitsVal l) else none

/-- Days of the month under the proleptic Gregorian calendar. -/
def daysInMonth (y m : Nat) : Nat :=
  if m = 2 then (if (y % 4 = 0 ∧ y % 100 ≠ 0) ∨ y % 400 = 0 then 29 else 28)
  else if m = 4 ∨ m = 6 ∨ m = 9 ∨ m = 11 then 30 else 31

/-- A wall-clock timestamp as produced by the datetime parser. -/
structure PyTimestamp where
  y : Nat
  m : Nat
  d : Nat
  hh : Nat
  mi : Nat
  se : Nat
deriving DecidableEq, Repr

/-- Parse `YYYY-MM-DD` with calendar validation. -/
def parseDateL (l : List Char) : Option (Nat × Nat × Nat) :=
  match splitOnCharL '-' l with
  | [ys, ms, ds] => do
      let y ← parse4 ys
      let m ← parse2 ms
      let d ← parse2 ds
      if 1 ≤ m ∧ m ≤ 12 ∧ 1 ≤ d ∧ d ≤ daysInMonth y m then some (y, m, d) else none
  | _ => none

/-- Parse `HH:MM:SS` with range validation. -/
def parseTimeL (l : List Char) : Option (Nat × Nat × Nat) :=
  match splitOnCharL ':' l with
  | [hs, ms, ss] => do
      let hh ← parse2 hs
      let mi ← parse2 ms
      let se ← parse2 ss
      if hh ≤ 23 ∧ mi ≤ 59 ∧ se ≤ 59 then some (hh, mi, se) else none
  | _ => none

/-- Modelled from the collaborator: the ISO subset of the `pd.to_datetime`
string parser — `YYYY-MM-DD`, optionally followed by a space and `HH:MM:SS`;
anything else is unparseable. -/
def parseDatetime (v : String) : Option PyTimestamp :=
  match splitOnCharL ' ' v.data with
  | [dl] => (parseDateL dl).map (fun ymd => ⟨ymd.1, ymd.2.1, ymd.2.2, 0, 0, 0⟩)
  | [dl, tl] => do
      let ymd ← parseDateL dl
      let hms ← parseTimeL tl
      some ⟨ymd.1, ymd.2.1, ymd.2.2, hms.1, hms.2.1, hms.2.2⟩
  | _ => none

/-- Modelled from the collaborator: `pd.to_datetime` on one cell with the
pandas default `errors="raise"` — absent values become `NaT` (here `none`),
parseable strings and temporal cells become timestamps, and an unparseable
string raises. Numeric epoch input is outside this model's scope. -/
def toDatetimeCell : Cell → Except WErr (Option PyTimestamp)
  | .absent => .ok Option.none
  | .s v =>
      match parseDatetime v with
      | some t => .ok (some t)
      | Option.none => .error (.valueError ("could not convert string to datetime: " ++ v))
  | .date y m d => .ok (some ⟨y, m, d, 0, 0, 0⟩)
  | .ts y m d hh mi se => .ok (some ⟨y, m, d, hh, mi, se⟩)
  | _ => .error (.valueError "to_datetime: unsupported cell kind in this model")

/-- Zero-padded two-digit rendering. -/
def pad2 (n : Nat) : String := if n < 10 then "0" ++ natStr n else natStr n

/-- Zero-padded four-digit rendering. -/
def pad4 (n : Nat) : String :=
  if n < 10 then "000" ++ natStr n
  else if n < 100 then "00" ++ natStr n
  else if n < 1000 then "0" ++ natStr n
  else natStr n

/-- Python `str` of a finite decimal in the common fixed-point regimes;
positive exponents render in the scientific form Python uses for them. -/
def renderDec : DecValue → String
  | .nanv => "NaN"
  | .infv neg => if neg then "-Infinity" else "Infinity"
  | .num neg c e =>
      let sign := if neg then "-" else ""
      let ds := natDigitChars c
      match e with
      | Int.ofNat 0 => sign ++ ⟨ds⟩
      | Int.ofNat (k + 1) => sign ++ ⟨ds⟩ ++ "E+" ++ natStr (k + 1)
      | Int.negSucc k =>
          let f := k + 1
          if f < ds.length then
            sign ++ ⟨ds.take (ds.length - f)⟩ ++ "." ++ ⟨ds.drop (ds.length - f)⟩
          else
            sign ++ "0." ++ ⟨List.replicate (f - ds.length) '0'⟩ ++ ⟨ds⟩

/-- Modelled from the collaborator: the string rendering pandas
`astype("string")` gives each cell — `str(x)`, except that an absent value
becomes `pd.NA`, rendered `<NA>`. The bytes rendering is only approximate
(no cast in this module ever stringifies a bytes column). -/
def cellToPdString : Cell → String
  | .absent => "<NA>"
  | .s v => v
  | .i v => ⟨intDigitChars v⟩
  | .date y m d => pad4 y ++ "-" ++ pad2 m ++ "-" ++ pad2 d
  | .ts y m d hh mi se =>
      pad4 y ++ "-" ++ pad2 m ++ "-" ++ pad2 d ++ " "
        ++ pad2 hh ++ ":" ++ pad2 mi ++ ":" ++ pad2 se
  | .dec dv => renderDec dv
  | .bytes bs => "b" ++ ⟨bs.map Char.ofNat⟩

/-- Signed digit run. -/
def parseSignedInt : List Char → Option Int
  | '-' :: r => (parseDigits r).map (fun n => -(n : Int))
  | '+' :: r => (parseDigits r).map (fun n => (n : Int))
  | r => (parseDigits r).map (fun n => (n : Int))

/-- Mantissa of a decimal literal: digits with at most one point, at least one
digit overall; returns the coefficient and the fractional exponent. -/
def parseUnsignedDec (l : List Char) : Option (Nat × Int) :=
  match splitOnCharL '.' l with
  | [ip] =>
      if ip ≠ [] ∧ ip.all isDigitChar then some (digitsVal ip, 0) else none
  | [ip, fp] =>
      if ip ++ fp ≠ [] ∧ ip.all isDigitChar ∧ fp.all isDigitChar then
        some (digitsVal (ip ++ fp), -(fp.length : Int))
      else none
  | _ => none

/-- Modelled from the collaborator: the Python `Decimal(str)` constructor —
optional surrounding spaces, optional sign, then either a (case-insensitive)
`nan` / `inf` / `infinity` name or `digits[.digits][e[sign]digits]`; anything
else raises the conversion error. -/
def pyDecimal (str : String) : Except WErr DecValue :=
  let t := ((str.data.dropWhile (· = ' ')).reverse.dropWhile (· = ' ')).reverse
  let tl := pyLower t
  let sb : Bool × List Char :=
    match tl with
    | '-' :: r => (true, r)
    | '+' :: r => (false, r)
    | r => (false, r)
  let neg := sb.1
  let body := sb.2
  if body = "nan".data then .ok .nanv
  else if body = "inf".data ∨ body = "infinity".data then .ok (.infv neg)
  else
    match splitOnCharL 'e' body with
    | [mant] =>
        match parseUnsignedDec mant with
        | some ce => .ok (.num neg ce.1 ce.2)
        | Option.none => .error (.valueError ("invalid decimal literal: " ++ str))
    | [mant, ex] =>
        match parseUnsignedDec mant, parseSignedInt ex with
        | some ce, some ev => .ok (.num neg ce.1 (ce.2 + ev))
        | _, _ => .error (.valueError ("invalid decimal literal: " ++ str))
    | _ => .error (.valueError ("invalid decimal literal: " ++ str))

/-- UTF-8 code units of one scalar value. -/
def utf8Bytes (c : Char) : List Nat :=
  let n := c.toNat
  if n < 128 then [n]
  else if n < 2048 then [192 + n / 64, 128 + n % 64]
  else if n < 65536 then [224 + n / 4096, 128 + (n / 64) % 64, 128 + n % 64]
  else [240 + n / 262144, 128 + (n / 4096) % 64, 128 + (n / 64) % 64, 128 + n % 64]

/-- UTF-8 encoding of a string. -/
def strUtf8 (s : String) : List Nat := (s.data.map utf8Bytes).flatten

/-- A pandas DataFrame as seen by the caster: named columns of cells, in
declaration order. -/
structure PdFrame where
  cols : List (String × List Cell)
deriving DecidableEq, Repr

/-- Python `df.columns`. -/
def PdFrame.columns (df : PdFrame) : List String := df.cols.map Prod.fst

/-- Python `df[c]` (defined only when the column exists). -/
def PdFrame.getCol (df : PdFrame) (c : String) : List Cell :=
  match dictGet? df.cols c with
  | some cells => cells
  | Option.none => []

/-- Python `df[c] = cells`: in-place column replacement. -/
def PdFrame.setCol (df : PdFrame) (c : String) (cells : List Cell) : PdFrame :=
  ⟨dictInsert c cells df.cols⟩

/-- The `datetime64` branch: `pd.to_datetime(df[col])`. -/
def castDatetimeCol (cells : List Cell) : Except WErr (List Cell) :=
  cells.mapM (fun c => (toDatetimeCell c).map (fun
    | some t => Cell.ts t.y t.m t.d t.hh t.mi t.se
    | Option.none => Cell.absent))

/-- The `date` branch: `pd.to_datetime(df[col]).dt.date.replace(to_replace=` the
map sending `NaT` to `None)` — truncate to the calendar date, absent stays an
explicit absent marker. -/
def castDateCol (cells : List Cell) : Except WErr (List Cell) :=
  cells.mapM (fun c => (toDatetimeCell c).map (fun
    | some t => Cell.date t.y t.m t.d
    | Option.none => Cell.absent))

/-- The `bytes` branch: `astype("string").str.encode("utf-8")` with `pd.NA`
replaced by `None`. -/
def castBytesCol (cells : List Cell) : Except WErr (List Cell) :=
  .ok (cells.map (fun c =>
    match c with
    | .absent => Cell.absent
    | c => Cell.bytes (strUtf8 (cellToPdString c))))

/-- The `decimal` branch: `astype("string")` then
`apply(lambda x: Decimal(str(x)) if str(x) not in ("", "none", " ", "<NA>")
else None)`. -/
def castDecimalCol (cells : List Cell) : Except WErr (List Cell) :=
  cells.mapM (fun c =>
    let r := cellToPdString c
    if r = "" ∨ r = "none" ∨ r = " " ∨ r = "<NA>" then .ok Cell.absent
    else (pyDecimal r).map Cell.dec)

/-- One iteration of `cast_pandas_with_athena_types`: skip override names that
are not dataframe columns, otherwise dispatch on the scalar kind from
`athena2pandas`; the generic `astype(pandas_type)` fallback is the dataframe
library's cast, taken as a collaborator parameter. -/
def castStep (astype : String → List Cell → Except WErr (List Cell))
    (acc : PdFrame) (ct : String × String) : Except WErr PdFrame :=
  if ct.1 ∈ acc.columns then do
    let pandas_type ← athena2pandas ct.2
    if pandas_type = "datetime64" then do
      let cells ← castDatetimeCol (acc.getCol ct.1)
      .ok (acc.setCol ct.1 cells)
    else if pandas_type = "date" then do
      let cells ← castDateCol (acc.getCol ct.1)
      .ok (acc.setCol ct.1 cells)
    else if pandas_type = "bytes" then do
      let cells ← castBytesCol (acc.getCol ct.1)
      .ok (acc.setCol ct.1 cells)
    else if pandas_type = "decimal" then do
      let cells ← castDecimalCol (acc.getCol ct.1)
      .ok (acc.setCol ct.1 cells)
    else do
      let cells ← astype pandas_type (acc.getCol ct.1)
      .ok (acc.setCol ct.1 cells)
  else .ok acc

/-- `cast_pandas_with_athena_types` from the source: fold the cast loop over
the override mapping, mutating the frame state column by column. -/
def cast_pandas_with_athena_types
    (astype : String → List Cell → Except WErr (List Cell))
    (df : PdFrame) (cast_columns : List (String × String)) : Except WErr PdFrame :=
  cast_columns.foldlM (castStep astype) df

/-! ### Lemmas and claims about the caster -/

/-- A `mapM` whose body succeeds pointwise is the corresponding `map`. -/
theorem mapM_ok_of_all {α β : Type} (f : α → Except WErr β) (g : α → β) :
    ∀ l : List α, (∀ c ∈ l, f c = .ok (g c)) → l.mapM f = .ok (l.map g) := by
  intro l
  induction l with
  | nil => intro _; rfl
  | cons c rest ih =>
      intro h
      rw [List.mapM_cons, h c (List.mem_cons_self _ _),
        ih (fun x hx => h x (List.mem_cons_of_mem _ hx))]
      rfl

/-- Per-cell precondition of the amended C4: the cell is absent or a
datetime string the parser accepts. -/
def dateCastable : Cell → Bool
  | Cell.absent => true
  | Cell.s v => (parseDatetime v).isSome
  | _ => false

/-- C4 (amended): casting a column with the `date` override truncates every
parseable datetime string to its calendar-date component and maps every absent
source value to the explicit absent marker — but only under the precondition
that each cell is parseable-or-absent: an unparseable string RAISES (pandas
`to_datetime` defaults to `errors="raise"`), so the cast is not exception-free
as originally claimed (see the counterexample). -/
theorem claim_C4_date_cast
    (astype : String → List Cell → Except WErr (List Cell)) (cells : List Cell)
    (h : cells.all dateCastable = true) :
    cast_pandas_with_athena_types astype ⟨[("d", cells)]⟩ [("d", "date")]
      = .ok ⟨[("d", cells.map (fun c =>
          match c with
          | Cell.s v =>
              (match parseDatetime v with
               | some t => Cell.date t.y t.m t.d
               | Option.none => Cell.absent)
          | _ => Cell.absent))]⟩ := by
  have hcast : castDateCol cells = .ok (cells.map (fun c =>
      match c with
      | Cell.s v =>
          (match parseDatetime v with
           | some t => Cell.date t.y t.m t.d
           | Option.none => Cell.absent)
      | _ => Cell.absent)) := by
    apply mapM_ok_of_all
    intro c hc
    have hc2 := List.all_eq_true.mp h c hc
    cases c with
    | absent => rfl
    | s v =>
        simp only [dateCastable] at hc2
        cases hpv : parseDatetime v with
        | none => rw [hpv] at hc2; simp at hc2
        | some t => simp [toDatetimeCell, hpv, Except.map]
    | i v => simp [dateCastable] at hc2
    | date y m d => simp [dateCastable] at hc2
    | ts y m d hh mi se => simp [dateCastable] at hc2
    | dec d => simp [dateCastable] at hc2
    | bytes bs => simp [dateCastable] at hc2
  rw [cast_pandas_with_athena_types, List.foldlM_cons]
  rw [show castStep astype ⟨[("d", cells)]⟩ ("d", "date")
      = (castDateCol cells).bind
          (fun cl => Except.ok (PdFrame.setCol ⟨[("d", cells)]⟩ "d" cl)) from rfl]
  rw [hcast]
  rfl

/-- Witness for C4: an ISO datetime string truncates to its date and an absent
value stays absent, with no exception. -/
theorem claim_C4_date_cast_witness :
    cast_pandas_with_athena_types (fun _ cs => .ok cs)
        ⟨[("d", [Cell.s "2020-01-02 03:04:05", Cell.absent])]⟩ [("d", "date")]
      = .ok ⟨[("d", [Cell.date 2020 1 2, Cell.absent])]⟩ :=
  claim_C4_date_cast (fun _ cs => .ok cs)
    [Cell.s "2020-01-02 03:04:05", Cell.absent] (by decide)

/-- Counterexample to C4 as stated: an unparseable string makes the `date`
cast raise instead of producing an absent marker — the cast can raise. -/
theorem claim_C4_cex_unparseable :
    cast_pandas_with_athena_types (fun _ cs => .ok cs) ⟨[("d", [Cell.s "garbage"])]⟩
        [("d", "date")]
      = .error (.valueError "could not convert string to datetime: garbage") := rfl

/-- C6 (confirmed): a `decimal(p,s)` override stringifies each cell and parses
it as an arbitrary-precision decimal, except that exactly the four renderings
`""`, `"none"`, `" "` and `"<NA>"` (the absent-value rendering) map to the
explicit absent marker instead of raising; in particular
`["1.50", "", "none"]` casts to `[Decimal 1.50, absent, absent]`. -/
theorem claim_C6_decimal_cast
    (astype : String → List Cell → Except WErr (List Cell)) (cells : List Cell) :
    cast_pandas_with_athena_types astype ⟨[("amt", cells)]⟩ [("amt", "decimal(10,2)")]
      = (cells.mapM (fun c =>
          if cellToPdString c = "" ∨ cellToPdString c = "none" ∨ cellToPdString c = " "
             ∨ cellToPdString c = "<NA>" then Except.ok Cell.absent
          else (pyDecimal (cellToPdString c)).map Cell.dec)).map
            (fun out => (⟨[("amt", out)]⟩ : PdFrame)) ∧
    cast_pandas_with_athena_types astype
        ⟨[("amt", [Cell.s "1.50", Cell.s "", Cell.s "none"])]⟩ [("amt", "decimal(10,2)")]
      = .ok ⟨[("amt", [Cell.dec (.num false 150 (-2)), Cell.absent, Cell.absent])]⟩ := by
  constructor
  · show cast_pandas_with_athena_types astype ⟨[("amt", cells)]⟩ [("amt", "decimal(10,2)")]
      = (castDecimalCol cells).map (fun out => (⟨[("amt", out)]⟩ : PdFrame))
    rw [cast_pandas_with_athena_types, List.foldlM_cons]
    rw [show castStep astype ⟨[("amt", cells)]⟩ ("amt", "decimal(10,2)")
        = (castDecimalCol cells).bind
            (fun cl => Except.ok (PdFrame.setCol ⟨[("amt", cells)]⟩ "amt" cl)) from rfl]
    cases hres : castDecimalCol cells with
    | error e => rfl
    | ok out => rfl
  · rfl

/-- Membership in a dict survives an update at a different key. -/
theorem mem_dictInsert_other {α : Type} (kv : String × α) (c : String) (v : α)
    (d : List (String × α)) (h : kv ∈ d) (hne : kv.1 ≠ c) : kv ∈ dictInsert c v d := by
  induction d with
  | nil => simp at h
  | cons kv0 rest ih =>
      obtain ⟨k0, v0⟩ := kv0
      by_cases hc : k0 = c
      · simp only [dictInsert, if_pos hc]
        rcases List.mem_cons.mp h with rfl | h0
        · exact absurd hc hne
        · exact List.mem_cons_of_mem _ h0
      · simp only [dictInsert, if_neg hc]
        rcases List.mem_cons.mp h with rfl | h0
        · exact List.mem_cons_self _ _
        · exact List.mem_cons_of_mem _ (ih h0)

/-- Replacing an existing column keeps the column list unchanged. -/
theorem setCol_columns (df : PdFrame) (c : String) (cells : List Cell)
    (h : c ∈ df.columns) : (df.setCol c cells).columns = df.columns := by
  show (dictInsert c cells df.cols).map Prod.fst = df.cols.map Prod.fst
  rw [dictInsert_keys]
  exact if_pos h

/-- A bind into a column write that succeeds produced a column write. -/
theorem bind_setCol_ok (X : Except WErr (List Cell)) (acc : PdFrame) (c : String)
    (acc' : PdFrame)
    (h : (X.bind (fun cells => Except.ok (acc.setCol c cells))) = .ok acc') :
    ∃ cells, acc' = acc.setCol c cells := by
  cases X with
  | error e => simp [Except.bind] at h
  | ok cells =>
      simp only [Except.bind, Except.ok.injEq] at h
      exact ⟨cells, h.symm⟩

/-- A successful cast iteration either skipped an override naming no column,
or wrote exactly the named column. -/
theorem castStep_ok (astype : String → List Cell → Except WErr (List Cell))
    (acc : PdFrame) (ct : String × String) (acc' : PdFrame)
    (h : castStep astype acc ct = .ok acc') :
    (ct.1 ∉ acc.columns ∧ acc' = acc) ∨
    (ct.1 ∈ acc.columns ∧ ∃ cells, acc' = acc.setCol ct.1 cells) := by
  by_cases hmem : ct.1 ∈ acc.columns
  · right
    refine ⟨hmem, ?_⟩
    rw [castStep, if_pos hmem] at h
    cases hpt : athena2pandas ct.2 with
    | error e => rw [hpt] at h; simp [bind, Except.bind] at h
    | ok pt =>
        rw [hpt] at h
        simp only [bind, Except.bind] at h
        split_ifs at h
        · cases hF : castDatetimeCol (acc.getCol ct.1) with
          | error e => rw [hF] at h; simp at h
          | ok cells => rw [hF] at h; simp only [Except.ok.injEq] at h; exact ⟨cells, h.symm⟩
        · cases hF : castDateCol (acc.getCol ct.1) with
          | error e => rw [hF] at h; simp at h
          | ok cells => rw [hF] at h; simp only [Except.ok.injEq] at h; exact ⟨cells, h.symm⟩
        · cases hF : castBytesCol (acc.getCol ct.1) with
          | error e => rw [hF] at h; simp at h
          | ok cells => rw [hF] at h; simp only [Except.ok.injEq] at h; exact ⟨cells, h.symm⟩
        · cases hF : castDecimalCol (acc.getCol ct.1) with
          | error e => rw [hF] at h; simp at h
          | ok cells => rw [hF] at h; simp only [Except.ok.injEq] at h; exact ⟨cells, h.symm⟩
        · cases hF : astype pt (acc.getCol ct.1) with
          | error e => rw [hF] at h; simp at h
          | ok cells => rw [hF] at h; simp only [Except.ok.injEq] at h; exact ⟨cells, h.symm⟩
  · left
    rw [castStep, if_neg hmem] at h
    injection h with h
    exact ⟨hmem, h.symm⟩

/-- C10 (confirmed, modulo the object-identity reading): the caster acts on
the caller's frame state — on success the result has the same columns in the
same order, every column not named in the override mapping keeps its exact
cells, and when no override names an existing column the frame is returned
unchanged. -/
theorem claim_C10_frame_effect
    (astype : String → List Cell → Except WErr (List Cell)) :
    ∀ (casts : List (String × String)) (df df' : PdFrame),
      cast_pandas_with_athena_types astype df casts = .ok df' →
      (df'.columns = df.columns ∧
       (∀ kv ∈ df.cols, kv.1 ∉ casts.map Prod.fst → kv ∈ df'.cols) ∧
       ((∀ ct ∈ casts, ct.1 ∉ df.columns) → df' = df)) := by
  intro casts
  induction casts with
  | nil =>
      intro df df' h
      simp only [cast_pandas_with_athena_types, List.foldlM_nil, pure, Except.pure,
        Except.ok.injEq] at h
      subst h
      exact ⟨rfl, fun kv hm _ => hm, fun _ => rfl⟩
  | cons ct rest ih =>
      intro df df' h
      rw [cast_pandas_with_athena_types, List.foldlM_cons] at h
      cases hstep : castStep astype df ct with
      | error e => rw [hstep] at h; simp [bind, Except.bind] at h
      | ok acc' =>
          rw [hstep] at h
          simp only [bind, Except.bind] at h
          have ih' := ih acc' df' h
          rcases castStep_ok astype df ct acc' hstep with ⟨hno, rfl⟩ | ⟨hmem, cells, rfl⟩
          · refine ⟨ih'.1, ?_, ?_⟩
            · intro kv hm hnot
              exact ih'.2.1 kv hm (fun hr => hnot (List.mem_cons_of_mem _ hr))
            · intro hall
              exact ih'.2.2 (fun ct' h' => hall ct' (List.mem_cons_of_mem _ h'))
          · refine ⟨?_, ?_, ?_⟩
            · rw [ih'.1, setCol_columns df ct.1 cells hmem]
            · intro kv hm hnot
              simp only [List.map_cons, List.mem_cons] at hnot
              push_neg at hnot
              exact ih'.2.1 kv
                (mem_dictInsert_other kv ct.1 cells df.cols hm hnot.1) hnot.2
            · intro hall
              exact absurd hmem (hall ct (List.mem_cons_self _ _))

/-- Witness for C10: an override naming a column absent from the frame leaves
the frame exactly as it was. -/
theorem claim_C10_frame_effect_witness :
    ((⟨[("a", [Cell.i 1])]⟩ : PdFrame).columns
        = (⟨[("a", [Cell.i 1])]⟩ : PdFrame).columns ∧
     (∀ kv ∈ (⟨[("a", [Cell.i 1])]⟩ : PdFrame).cols,
        kv.1 ∉ ([("b", "date")] : List (String × String)).map Prod.fst →
        kv ∈ (⟨[("a", [Cell.i 1])]⟩ : PdFrame).cols) ∧
     ((∀ ct ∈ ([("b", "date")] : List (String × String)),
        ct.1 ∉ (⟨[("a", [Cell.i 1])]⟩ : PdFrame).columns) →
        (⟨[("a", [Cell.i 1])]⟩ : PdFrame) = ⟨[("a", [Cell.i 1])]⟩)) :=
  claim_C10_frame_effect (fun _ cs => .ok cs) [("b", "date")]
    ⟨[("a", [Cell.i 1])]⟩ ⟨[("a", [Cell.i 1])]⟩ rfl

/-! ### Partition path codec -/

/-- A discovered pyarrow partition level: its key name and the per-row-group
key values. -/
structure PaPartition where
  name : String
  keys : List String

/-- Python `zip(*lists)` with shortest-list truncation; the fuel only bounds
the recursion and always suffices when it starts at the first list's length. -/
def pyZipAux : Nat → List (List String) → List (List String)
  | 0, _ => []
  | n + 1, ls =>
      if ls.any List.isEmpty then []
      else ls.map (fun l => l.headD "") :: pyZipAux n (ls.map List.tail)

/-- Python `zip(*lists)`; `zip()` of no lists is empty. -/
def pyZip (ls : List (List String)) : List (List String) :=
  match ls with
  | [] => []
  | l :: _ => pyZipAux l.length ls

/-- Python `"/".join(pieces)`. -/
def joinSlash : List String → String
  | [] => ""
  | [x] => x
  | x :: xs => x ++ "/" ++ joinSlash xs

/-- The rendered `key1=val1/key2=val2` suffix of one row. -/
def rowSuffix (names values : List String) : String :=
  joinSlash ((names.zip values).map (fun nv => nv.1 ++ "=" ++ nv.2))

/-- One iteration of the partition loop from the source: render the suffix,
force the trailing separator via `suffix[-1]` (an empty suffix would raise
`IndexError`), and write the full path into the dict. -/
def partitionRowStep (npath : String) (names : List String)
    (acc : List (String × List String)) (values : List String) :
    Except WErr (List (String × List String)) :=
  let suffix := rowSuffix names values
  match suffix.data.getLast? with
  | Option.none => .error (.indexError "string index out of range")
  | some c2 =>
      .ok (dictInsert (npath ++ (if c2 = '/' then suffix else suffix ++ "/")) values acc)

/-- `athena_partitions_from_pyarrow_partitions` from the source: normalize the
base path via `path[-1]` (raising `IndexError` on an empty path), transpose
the per-level key lists into rows, and map each rendered full path to the ordered
list of raw values. -/
def athena_partitions_from_pyarrow_partitions (path : String)
    (partitions : List PaPartition) : Except WErr (List (String × List String)) :=
  match path.data.getLast? with
  | Option.none => .error (.indexError "string index out of range")
  | some c =>
      let npath := if c = '/' then path else path ++ "/"
      let names := partitions.map PaPartition.name
      (pyZip (partitions.map PaPartition.keys)).foldlM (partitionRowStep npath names) []

/-- Append a `/` unless the string already ends with one. -/
def ensureSlash (s : String) : String :=
  if s.data.getLast? = some '/' then s else s ++ "/"

/-- Modelled from the spec: `encodePartitionPaths` — each mapping key is the
base path normalized to end with the separator, followed by the
`key1=val1/key2=val2/.../` rendering with a trailing separator, and each
mapping value is the ordered tuple of raw values. -/
def specRowInsert (base : String) (names : List String)
    (acc : List (String × List String)) (values : List String) :
    List (String × List String) :=
  dictInsert (base ++ ensureSlash (rowSuffix names values)) values acc

/-- Modelled from the spec: the full `encodePartitionPaths` mapping. -/
def specEncodePartitionPaths (basePath : String) (names : List String)
    (rows : List (List String)) : List (String × List String) :=
  rows.foldl (specRowInsert (ensureSlash basePath) names) []

/-- Every row the transpose produces has one value per input list. -/
theorem pyZipAux_row_length :
    ∀ (fuel : Nat) (ls : List (List String)) (row : List String),
      row ∈ pyZipAux fuel ls → row.length = ls.length := by
  intro fuel
  induction fuel with
  | zero => intro ls row h; simp [pyZipAux] at h
  | succ n ih =>
      intro ls row h
      rw [pyZipAux] at h
      by_cases he : ls.any List.isEmpty
      · rw [if_pos he] at h; simp at h
      · rw [if_neg he] at h
        rcases List.mem_cons.mp h with rfl | h0
        · simp
        · rw [ih (ls.map List.tail) row h0]
          simp

/-- The code's per-row loop agrees with the spec-side insert whenever the
rendered suffix is non-empty. -/
theorem partitionRowStep_eq_spec (npath : String) (names values : List String)
    (acc : List (String × List String)) (hne : (rowSuffix names values).data ≠ []) :
    partitionRowStep npath names acc values = .ok (specRowInsert npath names acc values) := by
  rw [partitionRowStep, specRowInsert]
  cases hl : (rowSuffix names values).data.getLast? with
  | none =>
      exact absurd (List.getLast?_eq_none_iff.mp hl) hne
  | some c2 =>
      show Except.ok (dictInsert (npath ++ (if c2 = '/' then rowSuffix names values
          else rowSuffix names values ++ "/")) values acc)
        = Except.ok (dictInsert (npath ++ ensureSlash (rowSuffix names values)) values acc)
      rw [ensureSlash, hl]
      by_cases hc : c2 = '/'
      · simp [hc]
      · rw [if_neg hc, if_neg (by simp [hc])]

/-- The code's partition fold is the spec-side fold when every row renders a
non-empty suffix. -/
theorem partition_fold_eq_spec (npath : String) (names : List String) :
    ∀ (rows : List (List String)) (acc : List (String × List String)),
      (∀ row ∈ rows, (rowSuffix names row).data ≠ []) →
      rows.foldlM (partitionRowStep npath names) acc
        = .ok (rows.foldl (specRowInsert npath names) acc) := by
  intro rows
  induction rows with
  | nil => intro acc _; rfl
  | cons row rest ih =>
      intro acc h
      rw [List.foldlM_cons, partitionRowStep_eq_spec npath names row acc
        (h row (List.mem_cons_self _ _))]
      rw [List.foldl_cons]
      have := ih (specRowInsert npath names acc row)
        (fun r hr => h r (List.mem_cons_of_mem _ hr))
      simp only [bind, Except.bind]
      exact this

/-- C8 (amended): for every NON-EMPTY base path, partition-key structure and
row sequence, the function returns exactly the mapping described by the spec —
normalized base path, `key=val` chain with a trailing separator as key, the
ordered raw values as value; determinism is inherent in the functional
embedding. The original claim's "every base path" fails at the empty path,
where `path[-1]` raises `IndexError` (see the counterexample). -/
theorem claim_C8_encode_partitions (path : String) (partitions : List PaPartition)
    (hpath : path ≠ "") :
    athena_partitions_from_pyarrow_partitions path partitions
      = .ok (specEncodePartitionPaths path (partitions.map PaPartition.name)
          (pyZip (partitions.map PaPartition.keys))) := by
  have hdata : path.data ≠ [] := by
    intro h
    apply hpath
    cases path with
    | mk l => rw [show l = [] from h]
  cases hc : path.data.getLast? with
  | none => exact absurd (List.getLast?_eq_none_iff.mp hc) hdata
  | some c =>
      rw [athena_partitions_from_pyarrow_partitions, hc]
      have hnp : (if c = '/' then path else path ++ "/") = ensureSlash path := by
        rw [ensureSlash, hc]
        by_cases h' : c = '/'
        · simp [h']
        · rw [if_neg h', if_neg (by simp [h'])]
      show List.foldlM (partitionRowStep (if c = '/' then path else path ++ "/")
          (partitions.map PaPartition.name)) []
          (pyZip (partitions.map PaPartition.keys))
        = Except.ok (specEncodePartitionPaths path (partitions.map PaPartition.name)
            (pyZip (partitions.map PaPartition.keys)))
      rw [hnp, specEncodePartitionPaths]
      apply partition_fold_eq_spec
      intro row hrow
      match hps : partitions with
      | [] => simp [pyZip] at hrow
      | p :: ps =>
          have hlen : row.length = (p :: ps).length := by
            have h1 := pyZipAux_row_length p.keys.length
              ((p :: ps).map PaPartition.keys) row (by simpa [pyZip] using hrow)
            simpa using h1
          have hzne : ((p :: ps).map PaPartition.name).zip row ≠ [] := by
            match row, hlen with
            | r0 :: rs, _ => simp
          match hz : ((p :: ps).map PaPartition.name).zip row with
          | [] => exact absurd hz hzne
          | nv :: rest =>
              rw [rowSuffix, hz]
              match rest with
              | [] =>
                  show (joinSlash [nv.1 ++ "=" ++ nv.2]).data ≠ []
                  simp [joinSlash]
              | nv2 :: rest2 =>
                  show (joinSlash ((nv.1 ++ "=" ++ nv.2)
                    :: ((nv2 :: rest2).map (fun nv => nv.1 ++ "=" ++ nv.2)))).data ≠ []
                  simp [joinSlash]

/-- Witness for C8: the spec's own example —
`("s3://bucket/prefix", ["name","date"], [("A","2020-01-01")])` maps the path
`s3://bucket/prefix/name=A/date=2020-01-01/` to `["A","2020-01-01"]`. -/
theorem claim_C8_encode_partitions_witness :
    athena_partitions_from_pyarrow_partitions "s3://bucket/prefix"
        [⟨"name", ["A"]⟩, ⟨"date", ["2020-01-01"]⟩]
      = .ok [("s3://bucket/prefix/name=A/date=2020-01-01/", ["A", "2020-01-01"])] := by
  rw [claim_C8_encode_partitions "s3://bucket/prefix"
    [⟨"name", ["A"]⟩, ⟨"date", ["2020-01-01"]⟩] (by decide)]
  rfl

/-- Counterexample to C8 as stated: on the empty base path the function
raises `IndexError` (from `path[-1]`) instead of returning a mapping. -/
theorem claim_C8_cex_empty_path :
    athena_partitions_from_pyarrow_partitions "" [⟨"name", ["A"]⟩]
      = .error (.indexError "string index out of range") := rfl

end AwsWrangler
